import Mathlib

/-!
Verification of `src/cpp/auxiliary/StringBuilder.h` (namespace `Aux`).

The header provides three cooperating mechanisms:
* a compile-time classifier `getPrintableCategory` choosing one
  `PrintableCategory` for a type from four structural capability probes
  (`isStreamable`, `isPair`, `isTuple`, `isIteratable`);
* a recursive renderer (`printToStreamTagged` overloads, dispatched on the
  category tag, plus the variadic `Impl::printToStream`);
* a template interpreter (`printFormatPartToStream` and the variadic
  `Impl::printToStreamF`) substituting `%s` placeholders and `%%` escapes.

Embedding conventions:
* An output stream is modelled as the `List Char` it has received; writing is
  appending.  `printFormatPartToStream` writes its literal chunk with
  `stream.write`; we model the chunk characterwise, which yields the same
  stream contents.
* C++ exceptions (`throw std::invalid_argument`) are modelled with an error
  component: `printFormatPartToStream` returns the characters written
  together with `Except FmtError (rest, printArgument)`, and the variadic
  interpreter returns the characters written together with
  `Option FmtError`, so that output emitted before a throw is retained
  (exactly what a real `std::ostream` has already received).
* A value of a printable type is modelled by the inductive `Value`, one
  constructor per category tag whose rendering overload exists; the type-level
  capability probes are modelled by `TypeCaps`, a record of the four boolean
  probe results.
-/

namespace Aux

/-- Categories of how a type might be printable
(`enum class PrintableCategory`, StringBuilder.h lines 51-57). -/
inductive PrintableCategory where
  | Unprintable : PrintableCategory
  | Iteratable : PrintableCategory
  | Pair : PrintableCategory
  | Tuple : PrintableCategory
  | Streamable : PrintableCategory
deriving DecidableEq

/-- The four structural capability probes of a C++ type:
`isStreamable<T>()`, `isPair<T>()`, `isTuple<T>()`, `isIteratable<T>()`
(StringBuilder.h lines 161-202).  A type is abstracted to the four boolean
results of these compile-time probes. -/
structure TypeCaps where
  streamable : Bool
  pair : Bool
  tuple : Bool
  iteratable : Bool
deriving DecidableEq

/-- `getPrintableCategory<T>()` (StringBuilder.h lines 64-72): the chain of
conditionals `isStreamable ? Streamable : isPair ? Pair : isTuple ? Tuple :
isIteratable ? Iteratable : Unprintable`. -/
def getPrintableCategory (t : TypeCaps) : PrintableCategory :=
  if t.streamable then PrintableCategory.Streamable
  else if t.pair then PrintableCategory.Pair
  else if t.tuple then PrintableCategory.Tuple
  else if t.iteratable then PrintableCategory.Iteratable
  else PrintableCategory.Unprintable

/-- Spec-side ("first match wins") resolution over an ordered candidate list;
used only to state the spec's decision procedure for comparison with
`getPrintableCategory`. -/
def spec_firstMatch : List (Bool × PrintableCategory) → PrintableCategory
  | [] => PrintableCategory.Unprintable
  | (b, c) :: rest => if b then c else spec_firstMatch rest

/-- Spec-side classifier, transcribing the spec's decision procedure: evaluate
Streamable, then PairLike, then TupleLike, then IterableLike in order, first
match wins, otherwise Unprintable. -/
def spec_classify (t : TypeCaps) : PrintableCategory :=
  spec_firstMatch
    [(t.streamable, PrintableCategory.Streamable),
     (t.pair, PrintableCategory.Pair),
     (t.tuple, PrintableCategory.Tuple),
     (t.iteratable, PrintableCategory.Iteratable)]

/-- Whether a rendering overload `printToStreamTagged` is actually defined for
a category tag: the Streamable/Pair/Tuple/Iteratable overloads are defined at
StringBuilder.h lines 209-258, while the `UnprintableTag` overload is only
`extern`-declared (line 91) and defined nowhere. -/
def hasRenderRule : PrintableCategory → Bool
  | PrintableCategory.Unprintable => false
  | _ => true

/-- The condition of the `static_assert` in `Impl::printToStream`
(StringBuilder.h lines 95-96): compilation succeeds for an argument type
exactly when this holds. -/
def staticAssertHolds (t : TypeCaps) : Prop :=
  getPrintableCategory t ≠ PrintableCategory.Unprintable

/-- A renderable value: one constructor per printable category.
`streamable` carries the value's native textual form (what `stream << arg`
would emit); `pair`, `tuple` and `iter` carry the component values. -/
inductive Value where
  | streamable : List Char → Value
  | pair : Value → Value → Value
  | tuple : List Value → Value
  | iter : List Value → Value

/-- The category that `getPrintableCategory` resolves for the C++ type
underlying each `Value` constructor. -/
def Value.category : Value → PrintableCategory
  | Value.streamable _ => PrintableCategory.Streamable
  | Value.pair _ _ => PrintableCategory.Pair
  | Value.tuple _ => PrintableCategory.Tuple
  | Value.iter _ => PrintableCategory.Iteratable

mutual

/-- Rendering a single value: `printToStreamTagged` dispatched on the value's
category (StringBuilder.h lines 209-258).
* Streamable (line 209): `stream << arg` emits the native textual form.
* Pair (lines 214-220): `'('`, first, `", "`, second, `')'`.
* Tuple (lines 223-239): `'('`, the `printTupleHelper` chain, `')'`.
* Iteratable (lines 242-258): `'['`, the firstpass-flagged loop, `']'`. -/
def render : Value → List Char
  | Value.streamable s => s
  | Value.pair a b => ['('] ++ render a ++ [',', ' '] ++ render b ++ [')']
  | Value.tuple es => ['('] ++ printTupleHelper es ++ [')']
  | Value.iter es => ['['] ++ iterBody es true ++ [']']

/-- `printTupleHelper<Tuple, I, TupleSize>::print` (StringBuilder.h lines
223-234): print element I-1 followed by `", "` and recurse, except the last
element which is printed bare.  (`std::tuple_size ≥ 1` in the source; the
`[]` case is a harmless totalisation.) -/
def printTupleHelper : List Value → List Char
  | [] => []
  | [v] => render v
  | v :: w :: vs => render v ++ [',', ' '] ++ printTupleHelper (w :: vs)

/-- The body of the Iteratable loop (StringBuilder.h lines 245-256): the
`firstpass` flag suppresses the separator before the first element. -/
def iterBody : List Value → Bool → List Char
  | [], _ => []
  | v :: vs, firstpass =>
      (if firstpass then [] else [',', ' ']) ++ render v ++ iterBody vs false

end

/-- The variadic `Impl::printToStream` (StringBuilder.h lines 80-99,
base case line 81): render each argument in order onto the stream.
`Aux::toString` (lines 266-271) returns the resulting stream contents. -/
def printToStreamList : List Value → List Char
  | [] => []
  | v :: vs => render v ++ printToStreamList vs

/-- `Aux::toString(args...)` (StringBuilder.h lines 266-271): collect
`Impl::printToStream` output into a string. -/
def toString (vs : List Value) : List Char :=
  printToStreamList vs

/-- The three runtime errors thrown by the template interpreter. -/
inductive FmtError where
  | moreArgs : FmtError
  | trailing : FmtError
  | illegal : FmtError
deriving DecidableEq

/-- `printFormatPartToStream` (StringBuilder.h lines 130-155): scan the format
from `begin`, writing literal characters (the source writes the chunk up to
the next `%` at once; written here characterwise, same stream contents);
on `%%` write `'%'` and continue; on `%s` stop, returning the rest of the
format and `printArgument = true`; at the end return `printArgument = false`;
a lone trailing `%` throws "formatstrings must not end on unmatched percent"
and any other character after `%` throws "illegal format-specifier".
Returns (characters written, `Except` of (rest, printArgument)). -/
def printFormatPartToStream : List Char → List Char × Except FmtError (List Char × Bool)
  | [] => ([], Except.ok ([], false))
  | c :: rest =>
    if c = '%' then
      match rest with
      | [] => ([], Except.error FmtError.trailing)
      | c2 :: rest2 =>
        if c2 = '%' then
          let r := printFormatPartToStream rest2
          ('%' :: r.1, r.2)
        else if c2 = 's' then
          ([], Except.ok (rest2, true))
        else
          ([], Except.error FmtError.illegal)
    else
      let r := printFormatPartToStream rest
      (c :: r.1, r.2)

/-- The variadic `Impl::printToStreamF` (StringBuilder.h lines 104-128).
Base case (lines 104-113): scan one part; if it requests an argument, throw
"formatstring requests more arguments then provided".  Recursive case (lines
114-128): scan one part; if it requests an argument, render the next argument
and continue with the remaining format and arguments; otherwise return,
silently discarding the remaining arguments.
Returns (characters written to the stream, error if thrown). -/
def printToStreamF : List Char → List Value → List Char × Option FmtError
  | fmt, [] =>
    let r := printFormatPartToStream fmt
    match r.2 with
    | Except.error e => (r.1, some e)
    | Except.ok (_, printArgument) =>
      if printArgument then (r.1, some FmtError.moreArgs) else (r.1, none)
  | fmt, v :: args =>
    let r := printFormatPartToStream fmt
    match r.2 with
    | Except.error e => (r.1, some e)
    | Except.ok (it, printArgument) =>
      if printArgument then
        let r2 := printToStreamF it args
        (r.1 ++ render v ++ r2.1, r2.2)
      else
        (r.1, none)

/-- `Aux::toStringF(format, args...)` (StringBuilder.h lines 279-284), the
spec's `interpret`: run the interpreter on a fresh buffer; a thrown error
propagates to the caller (`Except.error`), otherwise the buffer contents are
returned. -/
def toStringF (fmt : List Char) (args : List Value) : Except FmtError (List Char) :=
  let r := printToStreamF fmt args
  match r.2 with
  | some e => Except.error e
  | none => Except.ok r.1

/-! Spec-side definitions for the template interpreter, transcribed from the
spec's parsing rules (section 4.3): copy literal characters, `%%` emits one
`%`, `%s` emits the rendered next argument.  Used to state the claims; the
unreachable branches (a defect, or a missing argument) return `[]` and are
only ever compared under the well-formedness and argument-count hypotheses. -/

/-- A template is well formed when every `%` is immediately followed by `s`
or `%` (spec: no illegal specifier, no unmatched trailing `%`). -/
def wellFormed : List Char → Bool
  | [] => true
  | c :: rest =>
    if c = '%' then
      match rest with
      | [] => false
      | c2 :: rest2 => decide (c2 = 's' ∨ c2 = '%') && wellFormed rest2
    else wellFormed rest

/-- The number of `%s` placeholders of a template, counted left to right
(`%%` consumes both characters and is not a placeholder). -/
def nPlaceholders : List Char → Nat
  | [] => 0
  | c :: rest =>
    if c = '%' then
      match rest with
      | [] => 0
      | c2 :: rest2 => (if c2 = 's' then 1 else 0) + nPlaceholders rest2
    else nPlaceholders rest

/-- Spec-side interpreter: copy literal characters verbatim, emit one `%` per
`%%` consuming no argument, and replace the i-th `%s` with the rendered text
of the i-th argument. -/
def specInterp : List Char → List Value → List Char
  | [], _ => []
  | c :: rest, args =>
    if c = '%' then
      match rest with
      | [] => []
      | c2 :: rest2 =>
        if c2 = '%' then '%' :: specInterp rest2 args
        else if c2 = 's' then
          match args with
          | [] => []
          | v :: vs => render v ++ specInterp rest2 vs
        else []
    else c :: specInterp rest args

/-- The first defect of a template, scanning left to right: `trailing` when
the template ends immediately after an unescaped `%`, `illegal` when a `%` is
followed by a character other than `s` or `%`; `none` when well formed. -/
def firstDefect : List Char → Option FmtError
  | [] => none
  | c :: rest =>
    if c = '%' then
      match rest with
      | [] => some FmtError.trailing
      | c2 :: rest2 =>
        if c2 = 's' ∨ c2 = '%' then firstDefect rest2
        else some FmtError.illegal
    else firstDefect rest

/-- Spec-side `join(sep, pieces)`: the pieces separated by `sep`. -/
def spec_join (sep : List Char) : List (List Char) → List Char
  | [] => []
  | [x] => x
  | x :: y :: xs => x ++ sep ++ spec_join sep (y :: xs)

/-! Unfolding lemmas for `printFormatPartToStream`. -/

theorem pfp_nil : printFormatPartToStream [] = ([], Except.ok ([], false)) := rfl

theorem pfp_lit {c : Char} (hc : c ≠ '%') (r : List Char) :
    printFormatPartToStream (c :: r) =
      (c :: (printFormatPartToStream r).1, (printFormatPartToStream r).2) := by
  conv_lhs => rw [printFormatPartToStream.eq_def]
  simp [hc]

theorem pfp_esc (r : List Char) :
    printFormatPartToStream ('%' :: '%' :: r) =
      ('%' :: (printFormatPartToStream r).1, (printFormatPartToStream r).2) := by
  conv_lhs => rw [printFormatPartToStream.eq_def]
  simp

theorem pfp_s (r : List Char) :
    printFormatPartToStream ('%' :: 's' :: r) = ([], Except.ok (r, true)) := by
  conv_lhs => rw [printFormatPartToStream.eq_def]
  simp

theorem pfp_trailing : printFormatPartToStream ['%'] = ([], Except.error FmtError.trailing) := by
  rfl

theorem pfp_illegal {c : Char} (hcs : c ≠ 's') (hcp : c ≠ '%') (r : List Char) :
    printFormatPartToStream ('%' :: c :: r) = ([], Except.error FmtError.illegal) := by
  conv_lhs => rw [printFormatPartToStream.eq_def]
  simp [hcs, hcp]

/-! Unfolding lemmas for `printToStreamF`: how one scanning step composes with
the rest of the interpretation. -/

theorem ptsf_lit {c : Char} (hc : c ≠ '%') (r : List Char) (args : List Value) :
    printToStreamF (c :: r) args =
      (c :: (printToStreamF r args).1, (printToStreamF r args).2) := by
  cases args with
  | nil =>
    simp only [printToStreamF, pfp_lit hc]
    rcases hres : (printFormatPartToStream r).2 with e | ⟨it, b⟩
    · simp [hres]
    · cases b <;> simp [hres]
  | cons v vs =>
    simp only [printToStreamF, pfp_lit hc]
    rcases hres : (printFormatPartToStream r).2 with e | ⟨it, b⟩
    · simp [hres]
    · cases b <;> simp [hres]

theorem ptsf_esc (r : List Char) (args : List Value) :
    printToStreamF ('%' :: '%' :: r) args =
      ('%' :: (printToStreamF r args).1, (printToStreamF r args).2) := by
  cases args with
  | nil =>
    simp only [printToStreamF, pfp_esc]
    rcases hres : (printFormatPartToStream r).2 with e | ⟨it, b⟩
    · simp [hres]
    · cases b <;> simp [hres]
  | cons v vs =>
    simp only [printToStreamF, pfp_esc]
    rcases hres : (printFormatPartToStream r).2 with e | ⟨it, b⟩
    · simp [hres]
    · cases b <;> simp [hres]

theorem ptsf_s (r : List Char) (v : Value) (args : List Value) :
    printToStreamF ('%' :: 's' :: r) (v :: args) =
      (render v ++ (printToStreamF r args).1, (printToStreamF r args).2) := by
  simp [printToStreamF, pfp_s]

theorem ptsf_s_nil (r : List Char) :
    printToStreamF ('%' :: 's' :: r) [] = ([], some FmtError.moreArgs) := by
  simp [printToStreamF, pfp_s]

theorem ptsf_trailing (args : List Value) :
    printToStreamF ['%'] args = ([], some FmtError.trailing) := by
  cases args <;> simp [printToStreamF, pfp_trailing]

theorem ptsf_illegal {c : Char} (hcs : c ≠ 's') (hcp : c ≠ '%') (r : List Char)
    (args : List Value) :
    printToStreamF ('%' :: c :: r) args = ([], some FmtError.illegal) := by
  cases args <;> simp [printToStreamF, pfp_illegal hcs hcp]

/-! Unfolding lemmas for the spec-side scanning functions. -/

theorem wf_lit {c : Char} (hc : c ≠ '%') (r : List Char) :
    wellFormed (c :: r) = wellFormed r := by
  conv_lhs => rw [wellFormed.eq_def]
  simp [hc]

theorem wf_pc (c2 : Char) (r : List Char) :
    wellFormed ('%' :: c2 :: r) = (decide (c2 = 's' ∨ c2 = '%') && wellFormed r) := rfl

theorem wf_trail : wellFormed ['%'] = false := rfl

theorem np_lit {c : Char} (hc : c ≠ '%') (r : List Char) :
    nPlaceholders (c :: r) = nPlaceholders r := by
  conv_lhs => rw [nPlaceholders.eq_def]
  simp [hc]

theorem np_pc (c2 : Char) (r : List Char) :
    nPlaceholders ('%' :: c2 :: r) = (if c2 = 's' then 1 else 0) + nPlaceholders r := rfl

theorem si_lit {c : Char} (hc : c ≠ '%') (r : List Char) (args : List Value) :
    specInterp (c :: r) args = c :: specInterp r args := by
  conv_lhs => rw [specInterp.eq_def]
  simp [hc]

theorem si_esc (r : List Char) (args : List Value) :
    specInterp ('%' :: '%' :: r) args = '%' :: specInterp r args := rfl

theorem si_s (r : List Char) (v : Value) (vs : List Value) :
    specInterp ('%' :: 's' :: r) (v :: vs) = render v ++ specInterp r vs := rfl

theorem fd_lit {c : Char} (hc : c ≠ '%') (r : List Char) :
    firstDefect (c :: r) = firstDefect r := by
  conv_lhs => rw [firstDefect.eq_def]
  simp [hc]

theorem fd_esc (r : List Char) : firstDefect ('%' :: '%' :: r) = firstDefect r := by
  conv_lhs => rw [firstDefect.eq_def]
  simp

theorem fd_s (r : List Char) : firstDefect ('%' :: 's' :: r) = firstDefect r := by
  conv_lhs => rw [firstDefect.eq_def]
  simp

theorem fd_trail : firstDefect ['%'] = some FmtError.trailing := rfl

theorem fd_illegal {c : Char} (hcs : c ≠ 's') (hcp : c ≠ '%') (r : List Char) :
    firstDefect ('%' :: c :: r) = some FmtError.illegal := by
  conv_lhs => rw [firstDefect.eq_def]
  simp [hcs, hcp]

/-! Master lemmas about the interpreter, by strong induction on the length of
the format (each scanning step removes one or two characters). -/

/-- On a well-formed format with enough arguments, the interpreter writes
exactly the spec-side interpretation and throws nothing. -/
theorem ptsf_wf_ok : ∀ (n : Nat) (fmt : List Char) (args : List Value),
    fmt.length ≤ n → wellFormed fmt = true → nPlaceholders fmt ≤ args.length →
    printToStreamF fmt args = (specInterp fmt args, none) := by
  intro n
  induction n with
  | zero =>
    intro fmt args hlen _ _
    have hfmt : fmt = [] := List.eq_nil_of_length_eq_zero (Nat.le_zero.mp hlen)
    subst hfmt
    cases args <;> simp [printToStreamF, specInterp, printFormatPartToStream]
  | succ n ih =>
    intro fmt args hlen hwf hargs
    cases fmt with
    | nil => cases args <;> simp [printToStreamF, specInterp, printFormatPartToStream]
    | cons c r =>
      by_cases hc : c = '%'
      · subst hc
        cases r with
        | nil => rw [wf_trail] at hwf; exact absurd hwf (by simp)
        | cons c2 r2 =>
          rw [wf_pc] at hwf
          simp only [Bool.and_eq_true, decide_eq_true_eq] at hwf
          obtain ⟨hc2, hwf2⟩ := hwf
          have hlen2 : r2.length ≤ n := by
            simp only [List.length_cons] at hlen; omega
          by_cases hs : c2 = 's'
          · subst hs
            rw [np_pc] at hargs
            simp at hargs
            cases args with
            | nil => simp at hargs
            | cons v vs =>
              rw [ptsf_s, si_s]
              have hrec := ih r2 vs hlen2 hwf2 (by simp at hargs; omega)
              rw [hrec]
          · have hp : c2 = '%' := by tauto
            subst hp
            rw [np_pc] at hargs
            simp only [if_neg hs] at hargs
            rw [ptsf_esc, si_esc]
            have hrec := ih r2 args hlen2 hwf2 (by simpa using hargs)
            rw [hrec]
      · rw [wf_lit hc] at hwf
        rw [np_lit hc] at hargs
        have hlen2 : r.length ≤ n := by
          simp only [List.length_cons] at hlen; omega
        rw [ptsf_lit hc, si_lit hc]
        have hrec := ih r args hlen2 hwf hargs
        rw [hrec]

/-- On a well-formed format with fewer arguments than placeholders, the
interpreter throws the "more arguments requested than provided" error. -/
theorem ptsf_missing : ∀ (n : Nat) (fmt : List Char) (args : List Value),
    fmt.length ≤ n → wellFormed fmt = true → args.length < nPlaceholders fmt →
    (printToStreamF fmt args).2 = some FmtError.moreArgs := by
  intro n
  induction n with
  | zero =>
    intro fmt args hlen _ hargs
    have hfmt : fmt = [] := List.eq_nil_of_length_eq_zero (Nat.le_zero.mp hlen)
    subst hfmt
    simp [nPlaceholders] at hargs
  | succ n ih =>
    intro fmt args hlen hwf hargs
    cases fmt with
    | nil => simp [nPlaceholders] at hargs
    | cons c r =>
      by_cases hc : c = '%'
      · subst hc
        cases r with
        | nil => rw [wf_trail] at hwf; exact absurd hwf (by simp)
        | cons c2 r2 =>
          rw [wf_pc] at hwf
          simp only [Bool.and_eq_true, decide_eq_true_eq] at hwf
          obtain ⟨hc2, hwf2⟩ := hwf
          have hlen2 : r2.length ≤ n := by
            simp only [List.length_cons] at hlen; omega
          by_cases hs : c2 = 's'
          · subst hs
            rw [np_pc] at hargs
            simp at hargs
            cases args with
            | nil => rw [ptsf_s_nil]
            | cons v vs =>
              rw [ptsf_s]
              exact ih r2 vs hlen2 hwf2 (by simp at hargs; omega)
          · have hp : c2 = '%' := by tauto
            subst hp
            rw [np_pc] at hargs
            simp only [if_neg hs] at hargs
            rw [ptsf_esc]
            exact ih r2 args hlen2 hwf2 (by simpa using hargs)
      · rw [wf_lit hc] at hwf
        rw [np_lit hc] at hargs
        have hlen2 : r.length ≤ n := by
          simp only [List.length_cons] at hlen; omega
        rw [ptsf_lit hc]
        exact ih r args hlen2 hwf hargs

/-- With enough arguments for every placeholder, the error thrown by the
interpreter is exactly the first defect of the format scanned left to right
(and none when the format is well formed). -/
theorem ptsf_err_firstDefect : ∀ (n : Nat) (fmt : List Char) (args : List Value),
    fmt.length ≤ n → nPlaceholders fmt ≤ args.length →
    (printToStreamF fmt args).2 = firstDefect fmt := by
  intro n
  induction n with
  | zero =>
    intro fmt args hlen _
    have hfmt : fmt = [] := List.eq_nil_of_length_eq_zero (Nat.le_zero.mp hlen)
    subst hfmt
    cases args <;> simp [printToStreamF, printFormatPartToStream, firstDefect]
  | succ n ih =>
    intro fmt args hlen hargs
    cases fmt with
    | nil => cases args <;> simp [printToStreamF, printFormatPartToStream, firstDefect]
    | cons c r =>
      by_cases hc : c = '%'
      · subst hc
        cases r with
        | nil => rw [ptsf_trailing, fd_trail]
        | cons c2 r2 =>
          have hlen2 : r2.length ≤ n := by
            simp only [List.length_cons] at hlen; omega
          by_cases hs : c2 = 's'
          · subst hs
            rw [np_pc] at hargs
            simp at hargs
            cases args with
            | nil => simp at hargs
            | cons v vs =>
              rw [ptsf_s, fd_s]
              exact ih r2 vs hlen2 (by simp at hargs; omega)
          · by_cases hp : c2 = '%'
            · subst hp
              rw [np_pc] at hargs
              simp only [if_neg hs] at hargs
              rw [ptsf_esc, fd_esc]
              exact ih r2 args hlen2 (by simpa using hargs)
            · rw [ptsf_illegal hs hp, fd_illegal hs hp]
      · rw [np_lit hc] at hargs
        have hlen2 : r.length ≤ n := by
          simp only [List.length_cons] at hlen; omega
        rw [ptsf_lit hc, fd_lit hc]
        exact ih r args hlen2 hargs

/-- On a well-formed format with enough arguments, the spec-side
interpretation only depends on the first `nPlaceholders fmt` arguments. -/
theorem specInterp_take : ∀ (n : Nat) (fmt : List Char) (args : List Value),
    fmt.length ≤ n → wellFormed fmt = true → nPlaceholders fmt ≤ args.length →
    specInterp fmt args = specInterp fmt (args.take (nPlaceholders fmt)) := by
  intro n
  induction n with
  | zero =>
    intro fmt args hlen _ _
    have hfmt : fmt = [] := List.eq_nil_of_length_eq_zero (Nat.le_zero.mp hlen)
    subst hfmt
    simp [specInterp]
  | succ n ih =>
    intro fmt args hlen hwf hargs
    cases fmt with
    | nil => simp [specInterp]
    | cons c r =>
      by_cases hc : c = '%'
      · subst hc
        cases r with
        | nil => rw [wf_trail] at hwf; exact absurd hwf (by simp)
        | cons c2 r2 =>
          rw [wf_pc] at hwf
          simp only [Bool.and_eq_true, decide_eq_true_eq] at hwf
          obtain ⟨hc2, hwf2⟩ := hwf
          have hlen2 : r2.length ≤ n := by
            simp only [List.length_cons] at hlen; omega
          by_cases hs : c2 = 's'
          · subst hs
            rw [np_pc] at hargs
            simp at hargs
            cases args with
            | nil => simp at hargs
            | cons v vs =>
              have hcomm : nPlaceholders ('%' :: 's' :: r2) = nPlaceholders r2 + 1 := by
                rw [np_pc]; simp [Nat.add_comm]
              rw [hcomm, List.take_succ_cons, si_s, si_s]
              have hrec := ih r2 vs hlen2 hwf2 (by simp at hargs; omega)
              rw [hrec]
          · have hp : c2 = '%' := by tauto
            subst hp
            rw [np_pc] at hargs
            simp only [if_neg hs] at hargs
            have hnp : nPlaceholders ('%' :: '%' :: r2) = nPlaceholders r2 := by
              rw [np_pc]; simp [hs]
            rw [hnp, si_esc, si_esc]
            have hrec := ih r2 args hlen2 hwf2 (by simpa using hargs)
            rw [hrec]
      · rw [wf_lit hc] at hwf
        rw [np_lit hc] at hargs
        have hlen2 : r.length ≤ n := by
          simp only [List.length_cons] at hlen; omega
        rw [np_lit hc, si_lit hc, si_lit hc]
        have hrec := ih r args hlen2 hwf hargs
        rw [hrec]

/-- Scanning a purely literal prefix writes it to the stream and continues:
whatever the remaining interpretation writes or throws, the prefix has
already been written. -/
theorem ptsf_lit_append : ∀ (lit : List Char), (∀ c ∈ lit, c ≠ '%') →
    ∀ (fmt : List Char) (args : List Value),
    printToStreamF (lit ++ fmt) args =
      (lit ++ (printToStreamF fmt args).1, (printToStreamF fmt args).2) := by
  intro lit
  induction lit with
  | nil => intro _ fmt args; simp
  | cons c lit ih =>
    intro hin fmt args
    have hc : c ≠ '%' := hin c (by simp)
    have hin2 : ∀ x ∈ lit, x ≠ '%' := fun x hx => hin x (by simp [hx])
    rw [List.cons_append, ptsf_lit hc, ih hin2 fmt args]
    simp

/-! Helpers about the renderer. -/

/-- The Iteratable loop after the first pass: each further element is preceded
by the `", "` separator, which is exactly `spec_join` of the rendered
elements. -/
theorem iterBody_spec_join : ∀ (vs : List Value) (v : Value),
    render v ++ iterBody vs false = spec_join [',', ' '] (render v :: vs.map render) := by
  intro vs
  induction vs with
  | nil => intro v; simp [iterBody, spec_join]
  | cons w ws ih =>
    intro v
    have h : iterBody (w :: ws) false = [',', ' '] ++ render w ++ iterBody ws false := by
      simp [iterBody]
    calc render v ++ iterBody (w :: ws) false
        = render v ++ [',', ' '] ++ (render w ++ iterBody ws false) := by rw [h]; simp
      _ = render v ++ [',', ' '] ++ spec_join [',', ' '] (render w :: ws.map render) := by
          rw [ih w]
      _ = spec_join [',', ' '] (render v :: render w :: ws.map render) := by
          simp [spec_join]
      _ = spec_join [',', ' '] (render v :: (w :: ws).map render) := by simp

/-- The whole Iteratable loop equals `spec_join` of the rendered elements. -/
theorem iterBody_true_spec_join (es : List Value) :
    iterBody es true = spec_join [',', ' '] (es.map render) := by
  cases es with
  | nil => simp [iterBody, spec_join]
  | cons v vs =>
    have h : iterBody (v :: vs) true = render v ++ iterBody vs false := by
      simp [iterBody]
    rw [h, iterBody_spec_join vs v]
    simp

/-- The variadic `Impl::printToStream` output is the concatenation of the
individually rendered arguments. -/
theorem printToStreamList_join (vs : List Value) :
    printToStreamList vs = (vs.map render).flatten := by
  induction vs with
  | nil => simp [printToStreamList]
  | cons v ws ih => simp [printToStreamList, ih]

/-! The claims. -/

/-- C1: the Capability Classifier assigns exactly one category to every type
(`getPrintableCategory` is a total function of the capability probes), and it
coincides with the spec's first-match procedure over the fixed precedence
order Streamable, then PairLike, then TupleLike, then IterableLike, then
Unprintable; in particular a type that is both directly streamable and
forward-traversable, as a string is, is classified Streamable. -/
theorem classifier_precedence :
    (∀ t : TypeCaps, getPrintableCategory t = spec_classify t) ∧
    getPrintableCategory ⟨true, false, false, true⟩ = PrintableCategory.Streamable := by
  constructor
  · intro t
    obtain ⟨s, p, u, i⟩ := t
    cases s <;> cases p <;> cases u <;> cases i <;> rfl
  · rfl

/-- C2: on a well-formed template (every `%` immediately followed by `s` or
`%`) with at least as many arguments as `%s` placeholders, `interpret`
(`toStringF`) returns the spec-side interpretation: literal characters copied
verbatim in order, a single `%` per `%%` consuming no argument, and the i-th
`%s` replaced by the rendered text of the i-th argument. -/
theorem interpret_wf_spec (fmt : List Char) (args : List Value)
    (hwf : wellFormed fmt = true) (hargs : nPlaceholders fmt ≤ args.length) :
    toStringF fmt args = Except.ok (specInterp fmt args) := by
  have h := ptsf_wf_ok fmt.length fmt args le_rfl hwf hargs
  simp [toStringF, h]

/-- Witness for C2 at the template `"a%s%%"` with one argument. -/
theorem interpret_wf_spec_witness :
    wellFormed ['a', '%', 's', '%', '%'] = true ∧
    nPlaceholders ['a', '%', 's', '%', '%'] ≤
      ([Value.streamable ['X']] : List Value).length ∧
    toStringF ['a', '%', 's', '%', '%'] [Value.streamable ['X']] =
      Except.ok (specInterp ['a', '%', 's', '%', '%'] [Value.streamable ['X']]) :=
  ⟨by decide, by decide, interpret_wf_spec _ _ (by decide) (by decide)⟩

/-- C3 counterexample: the claim quantifies over every template, but on the
template `"%q%s"` with no arguments — which does contain a `%s` with no
unconsumed argument remaining — `interpret` raises the illegal-format error
(the defect encountered first), not the more-arguments-requested error. -/
theorem missing_argument_claim_cex :
    toStringF ['%', 'q', '%', 's'] [] = Except.error FmtError.illegal ∧
    FmtError.illegal ≠ FmtError.moreArgs :=
  ⟨rfl, by decide⟩

/-- C3 amended: on a well-formed template with fewer arguments than `%s`
placeholders, `interpret` raises the "more arguments requested than provided"
error to its immediate caller. -/
theorem interpret_missing_argument (fmt : List Char) (args : List Value)
    (hwf : wellFormed fmt = true) (hargs : args.length < nPlaceholders fmt) :
    toStringF fmt args = Except.error FmtError.moreArgs := by
  have h := ptsf_missing fmt.length fmt args le_rfl hwf hargs
  simp [toStringF, h]

/-- Witness for the amended C3 at the template `"%s"` with no arguments. -/
theorem interpret_missing_argument_witness :
    wellFormed ['%', 's'] = true ∧
    ([] : List Value).length < nPlaceholders ['%', 's'] ∧
    toStringF ['%', 's'] [] = Except.error FmtError.moreArgs :=
  ⟨by decide, by decide, interpret_missing_argument _ _ (by decide) (by decide)⟩

/-- C4: on a well-formed template whose placeholders are all satisfied,
`interpret` returns normally, and the result is the same as with the surplus
arguments removed: they are silently discarded, never rendered, and no error
is raised. -/
theorem interpret_surplus_discarded (fmt : List Char) (args : List Value)
    (hwf : wellFormed fmt = true) (hargs : nPlaceholders fmt ≤ args.length) :
    toStringF fmt args = toStringF fmt (args.take (nPlaceholders fmt)) ∧
    toStringF fmt args = Except.ok (specInterp fmt (args.take (nPlaceholders fmt))) := by
  have htk : nPlaceholders fmt ≤ (args.take (nPlaceholders fmt)).length := by
    simp [List.length_take]
    omega
  have h1 := ptsf_wf_ok fmt.length fmt args le_rfl hwf hargs
  have h2 := ptsf_wf_ok fmt.length fmt (args.take (nPlaceholders fmt)) le_rfl hwf htk
  have h3 := specInterp_take fmt.length fmt args le_rfl hwf hargs
  constructor
  · simp [toStringF, h1, h2, h3]
  · simp [toStringF, h1, h3]

/-- Witness for C4 at the template `"no"` with two surplus arguments. -/
theorem interpret_surplus_discarded_witness :
    wellFormed ['n', 'o'] = true ∧
    nPlaceholders ['n', 'o'] ≤
      ([Value.streamable ['1'], Value.streamable ['2']] : List Value).length ∧
    (toStringF ['n', 'o'] [Value.streamable ['1'], Value.streamable ['2']] =
      toStringF ['n', 'o']
        (([Value.streamable ['1'], Value.streamable ['2']] : List Value).take
          (nPlaceholders ['n', 'o'])) ∧
     toStringF ['n', 'o'] [Value.streamable ['1'], Value.streamable ['2']] =
      Except.ok (specInterp ['n', 'o']
        (([Value.streamable ['1'], Value.streamable ['2']] : List Value).take
          (nPlaceholders ['n', 'o'])))) :=
  ⟨by decide, by decide, interpret_surplus_discarded _ _ (by decide) (by decide)⟩

/-- C5 counterexample: the template `"%q%"` ends immediately after an
unescaped `%`, so the claim requires the unmatched-trailing error; the code
raises the illegal-format error instead, because the `%q` defect is
encountered first. -/
theorem trailing_claim_cex :
    toStringF ['%', 'q', '%'] [] = Except.error FmtError.illegal ∧
    FmtError.illegal ≠ FmtError.trailing :=
  ⟨rfl, by decide⟩

/-- C5 amended: with enough arguments for every placeholder, `interpret`
raises the illegal-format error exactly when the first defect of the template
(scanning left to right) is a `%` followed by a character other than `s` or
`%`, raises the unmatched-trailing error exactly when the first defect is the
template ending immediately after an unescaped `%`, and raises no error when
the template has no defect. -/
theorem interpret_error_is_first_defect (fmt : List Char) (args : List Value)
    (hargs : nPlaceholders fmt ≤ args.length) :
    (toStringF fmt args = Except.error FmtError.illegal ↔
      firstDefect fmt = some FmtError.illegal) ∧
    (toStringF fmt args = Except.error FmtError.trailing ↔
      firstDefect fmt = some FmtError.trailing) ∧
    (firstDefect fmt = none → ∃ out, toStringF fmt args = Except.ok out) := by
  have h := ptsf_err_firstDefect fmt.length fmt args le_rfl hargs
  rcases hfd : firstDefect fmt with _ | e
  · rw [hfd] at h
    refine ⟨by simp [toStringF, h], by simp [toStringF, h], ?_⟩
    intro _
    exact ⟨(printToStreamF fmt args).1, by simp [toStringF, h]⟩
  · rw [hfd] at h
    cases e <;> simp [toStringF, h]

/-- Witness for the amended C5 at the defect-free template `"a%%"`. -/
theorem interpret_error_is_first_defect_witness :
    nPlaceholders ['a', '%', '%'] ≤ ([] : List Value).length ∧
    ((toStringF ['a', '%', '%'] [] = Except.error FmtError.illegal ↔
       firstDefect ['a', '%', '%'] = some FmtError.illegal) ∧
     (toStringF ['a', '%', '%'] [] = Except.error FmtError.trailing ↔
       firstDefect ['a', '%', '%'] = some FmtError.trailing) ∧
     (firstDefect ['a', '%', '%'] = none →
       ∃ out, toStringF ['a', '%', '%'] [] = Except.ok out)) :=
  ⟨by decide, interpret_error_is_first_defect _ _ (by decide)⟩

/-- C6: a pair renders as `(`, the rendered first component, `, `, the
rendered second component, `)`, each component through the full recursive
procedure. -/
theorem render_pair_eq (a b : Value) :
    render (Value.pair a b) = ['('] ++ render a ++ [',', ' '] ++ render b ++ [')'] := by
  simp [render]

/-- C7: a sequence renders as `[`, the rendered elements in traversal order
joined by `, `, then `]`; the empty sequence renders as exactly `[]`. -/
theorem render_iter_eq (es : List Value) :
    render (Value.iter es) = ['['] ++ spec_join [',', ' '] (es.map render) ++ [']'] ∧
    render (Value.iter []) = ['[', ']'] := by
  constructor
  · simp [render, iterBody_true_spec_join]
  · simp [render, iterBody]

/-- C8: the `static_assert` guarding `Impl::printToStream` fails exactly for
the types classified Unprintable, which are exactly the types with no
rendering rule (the `UnprintableTag` overload is declared but never defined);
and every runtime-renderable value's category has a rendering rule, so the
Unprintable path is never reached at runtime. -/
theorem unprintable_rejected_statically :
    (∀ t : TypeCaps, staticAssertHolds t ↔ hasRenderRule (getPrintableCategory t) = true) ∧
    (∀ t : TypeCaps, ¬ staticAssertHolds t ↔
      getPrintableCategory t = PrintableCategory.Unprintable) ∧
    (∀ v : Value, hasRenderRule v.category = true) := by
  refine ⟨?_, ?_, ?_⟩
  · intro t
    cases h : getPrintableCategory t <;> simp [staticAssertHolds, hasRenderRule, h]
  · intro t
    simp [staticAssertHolds]
  · intro v
    cases v <;> rfl

/-- C9: `toString` (the spec's `render_all`) of a list of values is the
concatenation of the individually rendered texts in argument order, with no
separators and no enclosing punctuation, and of zero arguments it is the
empty text. -/
theorem toString_concat_renders (vs : List Value) :
    toString vs = (vs.map render).flatten ∧ toString ([] : List Value) = [] := by
  exact ⟨printToStreamList_join vs, rfl⟩

/-- C10: when the interpreter throws any of its three errors, the literal
text and rendered arguments preceding the error position have already been
written to the sink (the first component of `printToStreamF`, which models
the stream contents): a trailing `%`, an illegal specifier, or an unsatisfied
`%s` after a literal prefix `lit` leaves `lit` on the sink, and a satisfied
`%s` leaves the prefix and the rendered argument on the sink whatever the
continuation does. -/
theorem partial_output_before_error (lit : List Char) (r : List Char)
    (args : List Value) (v : Value) (c : Char) (hlit : ∀ x ∈ lit, x ≠ '%')
    (hcs : c ≠ 's') (hcp : c ≠ '%') :
    printToStreamF (lit ++ ['%']) args = (lit, some FmtError.trailing) ∧
    printToStreamF (lit ++ '%' :: c :: r) args = (lit, some FmtError.illegal) ∧
    printToStreamF (lit ++ '%' :: 's' :: r) [] = (lit, some FmtError.moreArgs) ∧
    printToStreamF (lit ++ '%' :: 's' :: r) (v :: args) =
      (lit ++ render v ++ (printToStreamF r args).1, (printToStreamF r args).2) := by
  refine ⟨?_, ?_, ?_, ?_⟩
  · rw [ptsf_lit_append lit hlit, ptsf_trailing]
    simp
  · rw [ptsf_lit_append lit hlit, ptsf_illegal hcs hcp]
    simp
  · rw [ptsf_lit_append lit hlit, ptsf_s_nil]
    simp
  · rw [ptsf_lit_append lit hlit, ptsf_s]
    simp

/-- Witness for C10 at the literal prefix `"ab"`, bad specifier `q`,
continuation `"x"` and one rendered argument. -/
theorem partial_output_before_error_witness :
    (∀ x ∈ (['a', 'b'] : List Char), x ≠ '%') ∧ ('q' : Char) ≠ 's' ∧ ('q' : Char) ≠ '%' ∧
    (printToStreamF (['a', 'b'] ++ ['%']) [] = (['a', 'b'], some FmtError.trailing) ∧
     printToStreamF (['a', 'b'] ++ '%' :: 'q' :: ['x']) [] =
       (['a', 'b'], some FmtError.illegal) ∧
     printToStreamF (['a', 'b'] ++ '%' :: 's' :: ['x']) [] =
       (['a', 'b'], some FmtError.moreArgs) ∧
     printToStreamF (['a', 'b'] ++ '%' :: 's' :: ['x']) [Value.streamable ['1']] =
       (['a', 'b'] ++ render (Value.streamable ['1']) ++ (printToStreamF ['x'] []).1,
        (printToStreamF ['x'] []).2)) :=
  ⟨by decide, by decide, by decide,
   partial_output_before_error ['a', 'b'] ['x'] [] (Value.streamable ['1']) 'q'
     (by decide) (by decide) (by decide)⟩

end Aux
